import Mathlib

/-!
Verification of the scheduling core of `scheduler_platform`
(`apps/scheduling/models.py` and `apps/scheduling/services.py`).

Modelling conventions of the shallow embedding:

* A local wall-clock instant is a number of minutes since a fixed local
  epoch (`day * 1440 + minutesIntoDay`); a local calendar date is the day
  number `instant / 1440`, and its weekday is `day % 7` (Python
  `date.weekday()` for a fixed epoch choice).
* A UTC instant is an `Int` number of minutes.  The process-wide
  timezone (`get_tz`, a single configured IANA zone) is modelled by the
  abstract conversion functions of `Env`: `to_utc` embeds
  `models.to_utc` / `datetime.astimezone(utc)`, and `localtime` embeds
  `django.utils.timezone.localtime(_, tz)`.  `Env.now_local` is the
  current instant (`timezone.now()`) expressed in local minutes.
* Database tables are lists of rows; Django querysets become list
  filters; `IntegrityError` of the `(resource, starts_at_utc)` unique
  constraint becomes an explicit duplicate check, and a failing service
  call returns `Except.error` leaving the store unchanged (the source
  wraps the insert in `transaction.atomic()`).
* The Python `while` loop of `slot_starts_local` is translated with an
  explicit fuel argument; the fuel chosen is always sufficient (the loop
  advances by 45 minutes within one day).
-/

/-- Row of `scheduling.Resource` (fields used by the services). -/
structure Resource where
  id : Nat
  owner_id : Nat
  name : String
deriving DecidableEq

/-- Row of `scheduling.AvailabilityRule`. -/
structure AvailabilityRule where
  resource_id : Nat
  weekday : Nat
  start_time_local : Nat
  end_time_local : Nat
  is_active : Bool
deriving DecidableEq

/-- Row of `scheduling.AvailabilityException`.  `start_time_local` and
`end_time_local` are nullable (`blank=True, null=True`). -/
structure AvailabilityException where
  resource_id : Nat
  date_local : Nat
  is_closed : Bool
  start_time_local : Option Nat
  end_time_local : Option Nat
deriving DecidableEq

/-- Row of `scheduling.Booking`: `id` models the UUID primary key,
`starts_at_utc` the stored UTC instant. -/
structure Booking where
  id : Nat
  resource_id : Nat
  user_id : Nat
  starts_at_utc : Int
deriving DecidableEq

/-- `services.Slot`: a candidate reservable instant with both its local
and UTC representation. -/
structure Slot where
  starts_local : Nat
  starts_utc : Int
deriving DecidableEq

/-- Ambient state of the process: the configured timezone's two
conversion directions and the current instant (`timezone.now()`),
expressed in local minutes. -/
structure Env where
  to_utc : Nat → Int
  localtime : Int → Nat
  now_local : Nat

/-- `models.daterange(start_date, days)`. -/
def daterange (start_date days : Nat) : List Nat :=
  (List.range days).map (fun idx => start_date + idx)

/-- The `while slot + 45min <= end_dt` loop of `models.slot_starts_local`,
with explicit fuel (always called with enough fuel to run to
completion). -/
def slot_starts_loop : Nat → Nat → Nat → List Nat
  | 0, _, _ => []
  | fuel + 1, slot, end_dt =>
    if slot + 45 ≤ end_dt then slot :: slot_starts_loop fuel (slot + 45) end_dt
    else []

/-- `models.slot_starts_local(day_local, start_t, end_t)`: all slot start
instants of duration 45 minutes fitting inside the local interval. -/
def slot_starts_local (day_local start_t end_t : Nat) : List Nat :=
  slot_starts_loop (day_local * 1440 + end_t) (day_local * 1440 + start_t)
    (day_local * 1440 + end_t)

/-- Ordering used by `AvailabilityRule.objects.order_by("weekday",
"start_time_local")`. -/
def ruleLE (a b : AvailabilityRule) : Bool :=
  a.weekday < b.weekday || (a.weekday == b.weekday && a.start_time_local ≤ b.start_time_local)

/-- Insertion step of the stable sort modelling the queryset order. -/
def insertRule (r : AvailabilityRule) : List AvailabilityRule → List AvailabilityRule
  | [] => [r]
  | x :: xs => if ruleLE r x then r :: x :: xs else x :: insertRule r xs

/-- Stable sort by `(weekday, start_time_local)`, modelling `order_by`. -/
def sortRules : List AvailabilityRule → List AvailabilityRule
  | [] => []
  | r :: rs => insertRule r (sortRules rs)

/-- The active rules of a resource in queryset order
(`AvailabilityRule.objects.filter(resource=resource, is_active=True)
.order_by("weekday", "start_time_local")`). -/
def activeRulesSorted (rules : List AvailabilityRule) (rid : Nat) : List AvailabilityRule :=
  sortRules (rules.filter (fun r => r.resource_id == rid && r.is_active))

/-- The per-date exception lookup (`exceptions` dict built from
`AvailabilityException.objects.filter(resource=resource)`; at most one
row per date under the `uniq_exception_per_resource_date` constraint). -/
def exceptionFor (exceptions : List AvailabilityException) (rid d : Nat) :
    Option AvailabilityException :=
  (exceptions.filter (fun e => e.resource_id == rid)).find? (fun e => e.date_local == d)

/-- The effective `(start_t, end_t)` of a rule on a day: the exception's
times replace the rule's own exactly when the exception is present, not
closed, and supplies both times (`services.list_available_slots`,
body of the rule loop). -/
def effectiveTimes (exc : Option AvailabilityException) (rule : AvailabilityRule) : Nat × Nat :=
  match exc with
  | some ex =>
    match ex.is_closed, ex.start_time_local, ex.end_time_local with
    | false, some s, some e => (s, e)
    | _, _, _ => (rule.start_time_local, rule.end_time_local)
  | none => (rule.start_time_local, rule.end_time_local)

/-- The slots emitted for one local date by the inner loops of
`list_available_slots`: for each rule of the weekday, enumerate the
effective interval and drop slots starting before `now`. -/
def slotsForDay (env : Env) (day_rules : List AvailabilityRule)
    (exc : Option AvailabilityException) (day_local : Nat) : List Slot :=
  day_rules.flatMap (fun rule =>
    (slot_starts_local day_local (effectiveTimes exc rule).1 (effectiveTimes exc rule).2).filterMap
      (fun m => if m < env.now_local then none else some ⟨m, env.to_utc m⟩))

/-- One iteration of the date loop of `list_available_slots`: a closed
exception skips the date; otherwise the weekday's rules are enumerated. -/
def dayContribution (env : Env) (rules : List AvailabilityRule)
    (exceptions : List AvailabilityException) (rid day_local : Nat) : List Slot :=
  match exceptionFor exceptions rid day_local with
  | some ex =>
    if ex.is_closed then []
    else
      slotsForDay env ((activeRulesSorted rules rid).filter (fun r => r.weekday == day_local % 7))
        (some ex) day_local
  | none =>
    slotsForDay env ((activeRulesSorted rules rid).filter (fun r => r.weekday == day_local % 7))
      none day_local

/-- The booked UTC instants of the resource in `[now - 1 day, ∞)`
(`Booking.objects.filter(resource=resource,
starts_at_utc__gte=timezone.now() - timedelta(days=1))`). -/
def bookedSet (env : Env) (bookings : List Booking) (rid : Nat) : List Int :=
  (bookings.filter (fun b =>
    b.resource_id == rid && decide (env.to_utc env.now_local - 1440 ≤ b.starts_at_utc))).map
    (fun b => b.starts_at_utc)

/-- `services.list_available_slots(resource, days_ahead)`. -/
def list_available_slots (env : Env) (rules : List AvailabilityRule)
    (exceptions : List AvailabilityException) (bookings : List Booking)
    (resource : Resource) (days_ahead : Nat) : List Slot :=
  ((daterange (env.now_local / 1440) days_ahead).flatMap
      (fun d => dayContribution env rules exceptions resource.id d)).filter
    (fun s => !(bookedSet env bookings resource.id).contains s.starts_utc)

/-- `services.user_daily_booking_count(user, day_local)`: bookings of the
user (any resource) whose UTC instant lies in
`[to_utc(day 00:00), to_utc(day+1 00:00))`. -/
def user_daily_booking_count (env : Env) (bookings : List Booking)
    (user_id day_local : Nat) : Nat :=
  (bookings.filter (fun b =>
    b.user_id == user_id &&
    decide (env.to_utc (day_local * 1440) ≤ b.starts_at_utc) &&
    decide (b.starts_at_utc < env.to_utc (day_local * 1440 + 1440)))).length

/-- The two `ValueError`s of `services.create_booking`. -/
inductive BookingError where
  | quotaExceeded
  | slotAlreadyBooked
deriving DecidableEq

/-- `services.create_booking`: quota check on the local day of the
requested instant, then transactional insert under the
`uniq_booking_resource_starts_at_utc` constraint (an existing row with
the same `(resource, starts_at_utc)` raises `IntegrityError`, surfaced
as `slotAlreadyBooked`; the transaction leaves the store unchanged).
On success returns the new row and the store with exactly that row
appended. -/
def create_booking (env : Env) (bookings : List Booking) (new_id user_id : Nat)
    (resource : Resource) (starts_at_utc : Int) :
    Except BookingError (Booking × List Booking) :=
  let day_local := env.localtime starts_at_utc / 1440
  if user_daily_booking_count env bookings user_id day_local ≥ 5 then
    .error .quotaExceeded
  else if bookings.any (fun b =>
      b.resource_id == resource.id && b.starts_at_utc == starts_at_utc) then
    .error .slotAlreadyBooked
  else
    let booking : Booking :=
      { id := new_id, resource_id := resource.id, user_id := user_id
        starts_at_utc := starts_at_utc }
    .ok (booking, bookings ++ [booking])

/-- The `PermissionError` of `services.cancel_booking`. -/
inductive CancelError where
  | notAuthorized
deriving DecidableEq

/-- `services.cancel_booking(booking, acting_user)`: only the booking's
user or the resource's owner may cancel; on success the row is deleted
from the store (by primary key). -/
def cancel_booking (bookings : List Booking) (booking : Booking) (resource : Resource)
    (acting_user_id : Nat) : Except CancelError (List Booking) :=
  if booking.user_id ≠ acting_user_id ∧ resource.owner_id ≠ acting_user_id then
    .error .notAuthorized
  else
    .ok (bookings.filter (fun b => !(b.id == booking.id)))

/-- `Booking.ends_at_utc`: fixed 45-minute duration, derived. -/
def ends_at_utc (b : Booking) : Int :=
  b.starts_at_utc + 45

/-- The calendar event written by `services.build_ics_bytes` (the fields
of the `ics.Event`; `begin_dt`/`end_dt` stand for `event.begin` /
`event.end`). -/
structure IcsEvent where
  name : String
  begin_dt : Int
  end_dt : Int
  description : String
  url : Option String
  uid : String
  created : Int
  last_modified : Int
  transparent : Bool
deriving DecidableEq

/-- `services.build_ics_bytes(booking, request_host)` as the event it
serialises; `now_utc` models the two `timezone.now()` reads. -/
def build_ics_bytes (booking : Booking) (resource : Resource)
    (request_host : Option String) (now_utc : Int) : IcsEvent :=
  { name := "Appointment: " ++ resource.name
    begin_dt := booking.starts_at_utc
    end_dt := ends_at_utc booking
    description := "Resource: " ++ resource.name
    url := request_host.map (fun h => "https://" ++ h ++ "/booking/")
    uid := Nat.repr booking.id ++ "@scheduler-platform"
    created := now_utc
    last_modified := now_utc
    transparent := false }

deriving instance DecidableEq for Except

/-- Decimal value of a digit string, the left inverse used to show that
`Nat.repr` (the model of `str(uuid)` inside the `uid` f-string) is
injective. -/
def digitsVal : List Char → Nat
  | [] => 0
  | c :: cs => (c.toNat - 48) * 10 ^ cs.length + digitsVal cs

/-! ### Concrete fixtures (identity-offset timezone) -/

/-- Fixture: `now` = day 0, 09:00 local. -/
def envW : Env :=
  { to_utc := fun m => (m : Int), localtime := fun u => u.toNat, now_local := 540 }

/-- Fixture: `now` = day 0, 00:00 local. -/
def envW0 : Env :=
  { to_utc := fun m => (m : Int), localtime := fun u => u.toNat, now_local := 0 }

def resW : Resource :=
  { id := 1, owner_id := 7, name := "Room" }

/-- Fixture rule: Monday 09:00–10:30. -/
def ruleW : AvailabilityRule :=
  { resource_id := 1, weekday := 0, start_time_local := 540, end_time_local := 630,
    is_active := true }

/-- Fixture rule: Monday 11:00–12:00. -/
def ruleW2 : AvailabilityRule :=
  { resource_id := 1, weekday := 0, start_time_local := 660, end_time_local := 720,
    is_active := true }

/-- Fixture: day 7 closed. -/
def exClosedW : AvailabilityException :=
  { resource_id := 1, date_local := 7, is_closed := true, start_time_local := some 480,
    end_time_local := some 525 }

/-- Fixture: day 0 open with override 08:00–08:45. -/
def exOverrideW : AvailabilityException :=
  { resource_id := 1, date_local := 0, is_closed := false, start_time_local := some 480,
    end_time_local := some 525 }

def bookW : Booking :=
  { id := 21, resource_id := 1, user_id := 2, starts_at_utc := 585 }

def bookX : Booking :=
  { id := 3, resource_id := 1, user_id := 1, starts_at_utc := 600 }

def bookY : Booking :=
  { id := 4, resource_id := 1, user_id := 1, starts_at_utc := 645 }

/-- Fixture store: user 1 holds 5 bookings on local day 0 (various
resources) and user 2 holds resource 1 at instant 300. -/
def bookingsB : List Booking :=
  [ { id := 11, resource_id := 2, user_id := 1, starts_at_utc := 0 },
    { id := 12, resource_id := 2, user_id := 1, starts_at_utc := 45 },
    { id := 13, resource_id := 2, user_id := 1, starts_at_utc := 90 },
    { id := 14, resource_id := 2, user_id := 1, starts_at_utc := 135 },
    { id := 15, resource_id := 2, user_id := 1, starts_at_utc := 180 },
    { id := 16, resource_id := 1, user_id := 2, starts_at_utc := 300 } ]

/-- Fixture store: only user 2's booking of resource 1 at instant 300. -/
def bookingsW1 : List Booking :=
  [ { id := 16, resource_id := 1, user_id := 2, starts_at_utc := 300 } ]

/-! ### Slot arithmetic -/

theorem slot_starts_loop_closed (fuel : Nat) :
    ∀ slot end_dt : Nat, end_dt ≤ slot + fuel →
      slot_starts_loop fuel slot end_dt =
        (List.range ((end_dt - slot) / 45)).map (fun k => slot + 45 * k) := by
  induction fuel with
  | zero =>
    intro slot end_dt h
    have h0 : (end_dt - slot) / 45 = 0 := by omega
    simp [slot_starts_loop, h0]
  | succ fuel ih =>
    intro slot end_dt h
    by_cases hfit : slot + 45 ≤ end_dt
    · have hdiv : (end_dt - slot) / 45 = (end_dt - (slot + 45)) / 45 + 1 := by omega
      have hcomp : ((fun k => slot + 45 * k) ∘ Nat.succ) = fun k => slot + 45 + 45 * k := by
        funext k
        simp only [Function.comp_apply]
        omega
      rw [slot_starts_loop, if_pos hfit, ih (slot + 45) end_dt (by omega), hdiv,
        List.range_succ_eq_map, List.map_cons, List.map_map, hcomp]
      norm_num
    · have h0 : (end_dt - slot) / 45 = 0 := by omega
      rw [slot_starts_loop, if_neg hfit, h0]
      simp

theorem slot_starts_local_closed (day_local start_t end_t : Nat) :
    slot_starts_local day_local start_t end_t =
      (List.range ((end_t - start_t) / 45)).map
        (fun k => day_local * 1440 + start_t + 45 * k) := by
  rw [slot_starts_local, slot_starts_loop_closed _ _ _ (by omega)]
  have h : (day_local * 1440 + end_t) - (day_local * 1440 + start_t) = end_t - start_t := by
    omega
  rw [h]

theorem mem_slot_starts_local (day_local start_t end_t m : Nat) :
    m ∈ slot_starts_local day_local start_t end_t ↔
      ∃ k, m = day_local * 1440 + start_t + 45 * k ∧
        m + 45 ≤ day_local * 1440 + end_t := by
  rw [slot_starts_local_closed]
  simp only [List.mem_map, List.mem_range]
  constructor
  · rintro ⟨k, hk, rfl⟩
    exact ⟨k, rfl, by omega⟩
  · rintro ⟨k, rfl, hle⟩
    exact ⟨k, by omega, rfl⟩

/-- C3: slot enumeration emits exactly the instants `open + k·45min`
whose 45-minute slot ends no later than `close` (a slot ending exactly
at `close` is included, one ending after is excluded); for
09:00–10:30 it yields exactly 09:00 and 09:45. -/
theorem slot_starts_local_spec :
    (∀ day_local start_t end_t m,
      m ∈ slot_starts_local day_local start_t end_t ↔
        ∃ k, m = day_local * 1440 + start_t + 45 * k ∧
          m + 45 ≤ day_local * 1440 + end_t) ∧
    slot_starts_local 0 540 630 = [540, 585] := by
  refine ⟨mem_slot_starts_local, ?_⟩
  decide

/-- C8: an inverted local interval (start time at or after end time)
yields zero slots, with no error. -/
theorem inverted_interval_empty (day_local start_t end_t : Nat)
    (h : end_t ≤ start_t) :
    slot_starts_local day_local start_t end_t = [] := by
  rw [slot_starts_local_closed]
  have h0 : (end_t - start_t) / 45 = 0 := by omega
  simp [h0]

/-- Witness for C8 at the concrete inverted interval 10:00–09:00. -/
theorem inverted_interval_empty_witness :
    slot_starts_local 0 600 540 = [] :=
  inverted_interval_empty 0 600 540 (by decide)

/-! ### Resolver structure lemmas -/

theorem mem_insertRule {r x : AvailabilityRule} {l : List AvailabilityRule} :
    x ∈ insertRule r l ↔ x = r ∨ x ∈ l := by
  induction l with
  | nil => simp [insertRule]
  | cons a l ih =>
    by_cases h : ruleLE r a
    · simp [insertRule, h]
    · simp [insertRule, h, ih]
      tauto

theorem mem_sortRules {x : AvailabilityRule} {l : List AvailabilityRule} :
    x ∈ sortRules l ↔ x ∈ l := by
  induction l with
  | nil => simp [sortRules]
  | cons a l ih => simp [sortRules, mem_insertRule, ih]

theorem mem_activeRulesSorted {rules : List AvailabilityRule} {rid : Nat}
    {x : AvailabilityRule} (h : x ∈ activeRulesSorted rules rid) :
    x ∈ rules ∧ x.resource_id = rid ∧ x.is_active = true := by
  rw [activeRulesSorted, mem_sortRules, List.mem_filter] at h
  refine ⟨h.1, ?_, ?_⟩ <;> have h2 := h.2 <;> simp at h2 <;> tauto

theorem mem_slotsForDay {env : Env} {day_rules : List AvailabilityRule}
    {exc : Option AvailabilityException} {day_local : Nat} {s : Slot} :
    s ∈ slotsForDay env day_rules exc day_local ↔
      ∃ rule ∈ day_rules,
        ∃ m ∈ slot_starts_local day_local (effectiveTimes exc rule).1
            (effectiveTimes exc rule).2,
          env.now_local ≤ m ∧ s = ⟨m, env.to_utc m⟩ := by
  simp only [slotsForDay, List.mem_flatMap, List.mem_filterMap]
  constructor
  · rintro ⟨rule, hr, m, hm, hif⟩
    by_cases hlt : m < env.now_local
    · rw [if_pos hlt] at hif
      cases hif
    · rw [if_neg hlt] at hif
      exact ⟨rule, hr, m, hm, by omega, (Option.some_inj.mp hif).symm⟩
  · rintro ⟨rule, hr, m, hm, hle, rfl⟩
    exact ⟨rule, hr, m, hm, by rw [if_neg (by omega)]⟩

theorem exceptionFor_mem {exceptions : List AvailabilityException} {rid d : Nat}
    {ex : AvailabilityException} (h : exceptionFor exceptions rid d = some ex) :
    ex ∈ exceptions ∧ ex.resource_id = rid ∧ ex.date_local = d := by
  have hmem := List.mem_of_find?_eq_some h
  have hp := List.find?_some h
  rw [List.mem_filter] at hmem
  refine ⟨hmem.1, ?_, ?_⟩
  · have := hmem.2
    simpa using this
  · simpa using hp

theorem exceptionFor_eq_some {exceptions : List AvailabilityException} {rid d : Nat}
    {ex : AvailabilityException}
    (huniq : ∀ a ∈ exceptions, ∀ b ∈ exceptions,
      a.resource_id = b.resource_id → a.date_local = b.date_local → a = b)
    (hex : ex ∈ exceptions) (hrid : ex.resource_id = rid) (hd : ex.date_local = d) :
    exceptionFor exceptions rid d = some ex := by
  have hmemf : ex ∈ exceptions.filter (fun e => e.resource_id == rid) :=
    List.mem_filter.mpr ⟨hex, by simp [hrid]⟩
  have hsome : ((exceptions.filter (fun e => e.resource_id == rid)).find?
      (fun e => e.date_local == d)).isSome := by
    rw [List.find?_isSome]
    exact ⟨ex, hmemf, by simp [hd]⟩
  obtain ⟨y, hy⟩ := Option.isSome_iff_exists.mp hsome
  have hyp : y.date_local = d := by simpa using List.find?_some hy
  have hymem := List.mem_of_find?_eq_some hy
  rw [List.mem_filter] at hymem
  have hyrid : y.resource_id = rid := by simpa using hymem.2
  have : y = ex := huniq y hymem.1 ex hex (by rw [hyrid, hrid]) (by rw [hyp, hd])
  rw [exceptionFor, hy, this]

theorem exceptionFor_eq_none {exceptions : List AvailabilityException} {rid d : Nat}
    (hnone : ∀ e ∈ exceptions, ¬(e.resource_id = rid ∧ e.date_local = d)) :
    exceptionFor exceptions rid d = none := by
  rw [exceptionFor, List.find?_eq_none]
  intro x hx
  rw [List.mem_filter] at hx
  have hxrid : x.resource_id = rid := by simpa using hx.2
  simp only [beq_iff_eq]
  exact fun hxd => hnone x hx.1 ⟨hxrid, hxd⟩

theorem mem_dayContribution {env : Env} {rules : List AvailabilityRule}
    {exceptions : List AvailabilityException} {rid day_local : Nat} {s : Slot}
    (h : s ∈ dayContribution env rules exceptions rid day_local) :
    (exceptionFor exceptions rid day_local = none ∧
      s ∈ slotsForDay env
        ((activeRulesSorted rules rid).filter (fun r => r.weekday == day_local % 7))
        none day_local) ∨
    (∃ ex, exceptionFor exceptions rid day_local = some ex ∧ ex.is_closed = false ∧
      s ∈ slotsForDay env
        ((activeRulesSorted rules rid).filter (fun r => r.weekday == day_local % 7))
        (some ex) day_local) := by
  rw [dayContribution] at h
  split at h
  next ex heq =>
    by_cases hc : ex.is_closed
    · rw [if_pos hc] at h
      cases h
    · rw [if_neg hc] at h
      exact Or.inr ⟨ex, heq, by simpa using hc, h⟩
  next heq =>
    exact Or.inl ⟨heq, h⟩

theorem effectiveTimes_snd_lt {exc : Option AvailabilityException}
    {rule : AvailabilityRule} (hr : rule.end_time_local < 1440)
    (he : ∀ ex, exc = some ex → ∀ t ∈ ex.end_time_local, t < 1440) :
    (effectiveTimes exc rule).2 < 1440 := by
  rcases exc with _ | ex
  · exact hr
  · rcases hc : ex.is_closed with _ | _ <;>
      rcases hst : ex.start_time_local with _ | s <;>
      rcases hen : ex.end_time_local with _ | t <;>
      simp only [effectiveTimes, hc, hst, hen] <;>
      first
        | exact hr
        | exact he ex rfl t (by simp [hen])

/-! ### Dates of produced slots -/

theorem slotsForDay_date {env : Env} {day_rules : List AvailabilityRule}
    {exc : Option AvailabilityException} {day_local : Nat}
    (hwf : ∀ rule ∈ day_rules, (effectiveTimes exc rule).2 < 1440) :
    ∀ s ∈ slotsForDay env day_rules exc day_local, s.starts_local / 1440 = day_local := by
  intro s hs
  obtain ⟨rule, hr, m, hm, hle, hseq⟩ := mem_slotsForDay.mp hs
  obtain ⟨k, hmk, hfit⟩ := (mem_slot_starts_local _ _ _ _).mp hm
  have hend := hwf rule hr
  have hsl : s.starts_local = m := by rw [hseq]
  rw [hsl]
  omega

theorem dayContribution_date {env : Env} {rules : List AvailabilityRule}
    {exceptions : List AvailabilityException} {rid day_local : Nat}
    (hwfr : ∀ r ∈ rules, r.end_time_local < 1440)
    (hwfe : ∀ e ∈ exceptions, ∀ t ∈ e.end_time_local, t < 1440) :
    ∀ s ∈ dayContribution env rules exceptions rid day_local,
      s.starts_local / 1440 = day_local := by
  intro s hs
  rcases mem_dayContribution hs with ⟨_, hmem⟩ | ⟨ex, hfind, _, hmem⟩
  · refine slotsForDay_date ?_ s hmem
    intro rule hr
    have hrule := mem_activeRulesSorted (List.mem_of_mem_filter hr)
    refine effectiveTimes_snd_lt (hwfr rule hrule.1) ?_
    rintro ex h
    cases h
  · refine slotsForDay_date ?_ s hmem
    intro rule hr
    have hrule := mem_activeRulesSorted (List.mem_of_mem_filter hr)
    have hexmem := exceptionFor_mem hfind
    refine effectiveTimes_snd_lt (hwfr rule hrule.1) ?_
    rintro ex' hex' t ht
    have hxx : ex' = ex := (Option.some_inj.mp hex'.symm)
    subst hxx
    exact hwfe ex' hexmem.1 t ht

theorem daterange_nodup (start_date days : Nat) : (daterange start_date days).Nodup :=
  List.Nodup.map (fun a b h => by omega) (List.nodup_range days)

theorem flatMap_dayContribution_filter_date {env : Env} {rules : List AvailabilityRule}
    {exceptions : List AvailabilityException} {rid : Nat}
    (hwfr : ∀ r ∈ rules, r.end_time_local < 1440)
    (hwfe : ∀ e ∈ exceptions, ∀ t ∈ e.end_time_local, t < 1440) :
    ∀ ds : List Nat, ds.Nodup → ∀ d ∈ ds,
      (ds.flatMap (fun d' => dayContribution env rules exceptions rid d')).filter
          (fun s => s.starts_local / 1440 == d) =
        dayContribution env rules exceptions rid d := by
  intro ds
  induction ds with
  | nil =>
    intro _ d hd
    cases hd
  | cons d0 ds ih =>
    intro hnd d hd
    have hnd' := List.nodup_cons.mp hnd
    rw [List.flatMap_cons, List.filter_append]
    rcases List.mem_cons.mp hd with rfl | hdtl
    · have h1 : (dayContribution env rules exceptions rid d).filter
          (fun s => s.starts_local / 1440 == d) = dayContribution env rules exceptions rid d :=
        List.filter_eq_self.mpr (fun s hs => by
          simp [dayContribution_date hwfr hwfe s hs])
      have h2 : (ds.flatMap (fun d' => dayContribution env rules exceptions rid d')).filter
          (fun s => s.starts_local / 1440 == d) = [] := by
        rw [List.filter_eq_nil_iff]
        intro s hs
        rw [List.mem_flatMap] at hs
        obtain ⟨d', hd', hsd⟩ := hs
        have hdate := dayContribution_date hwfr hwfe s hsd
        have hne : d' ≠ d := fun hEq => hnd'.1 (hEq ▸ hd')
        simp [hdate, hne]
      rw [h1, h2, List.append_nil]
    · have hne : d0 ≠ d := fun hEq => hnd'.1 (hEq ▸ hdtl)
      have h1 : (dayContribution env rules exceptions rid d0).filter
          (fun s => s.starts_local / 1440 == d) = [] := by
        rw [List.filter_eq_nil_iff]
        intro s hs
        have hdate := dayContribution_date hwfr hwfe s hs
        simp [hdate, hne]
      rw [h1, ih hnd'.2 d hdtl, List.nil_append]

theorem list_available_slots_filter_date (env : Env) (rules : List AvailabilityRule)
    (exceptions : List AvailabilityException) (bookings : List Booking)
    (resource : Resource) (days_ahead d : Nat)
    (hwfr : ∀ r ∈ rules, r.end_time_local < 1440)
    (hwfe : ∀ e ∈ exceptions, ∀ t ∈ e.end_time_local, t < 1440)
    (hwin : d ∈ daterange (env.now_local / 1440) days_ahead) :
    (list_available_slots env rules exceptions bookings resource days_ahead).filter
        (fun s => s.starts_local / 1440 == d) =
      (dayContribution env rules exceptions resource.id d).filter
        (fun s => !(bookedSet env bookings resource.id).contains s.starts_utc) := by
  rw [list_available_slots, List.filter_filter,
    ← flatMap_dayContribution_filter_date hwfr hwfe _ (daterange_nodup _ _) d hwin,
    List.filter_filter]
  exact List.filter_congr (fun s _ => by rw [Bool.and_comm])

/-- C4: a date carrying a closed exception of the resource contributes
no slot at all to `list_available_slots`, whatever the rules of the
weekday are. -/
theorem closed_exception_skips_date (env : Env) (rules : List AvailabilityRule)
    (exceptions : List AvailabilityException) (bookings : List Booking)
    (resource : Resource) (days_ahead d : Nat) (ex : AvailabilityException)
    (hwfr : ∀ r ∈ rules, r.end_time_local < 1440)
    (hwfe : ∀ e ∈ exceptions, ∀ t ∈ e.end_time_local, t < 1440)
    (huniq : ∀ a ∈ exceptions, ∀ b ∈ exceptions,
      a.resource_id = b.resource_id → a.date_local = b.date_local → a = b)
    (hex : ex ∈ exceptions) (hrid : ex.resource_id = resource.id)
    (hd : ex.date_local = d) (hclosed : ex.is_closed = true) :
    ∀ s ∈ list_available_slots env rules exceptions bookings resource days_ahead,
      s.starts_local / 1440 ≠ d := by
  intro s hs hcon
  rw [list_available_slots] at hs
  have hs' := List.mem_of_mem_filter hs
  rw [List.mem_flatMap] at hs'
  obtain ⟨d', hd', hsd⟩ := hs'
  have hdate := dayContribution_date hwfr hwfe s hsd
  have hdd : d' = d := by omega
  subst hdd
  rcases mem_dayContribution hsd with ⟨hfind, _⟩ | ⟨ex', hfind, hopen, _⟩
  · rw [exceptionFor_eq_some huniq hex hrid hd] at hfind
    cases hfind
  · rw [exceptionFor_eq_some huniq hex hrid hd] at hfind
    have hxx : ex' = ex := (Option.some_inj.mp hfind.symm)
    subst hxx
    rw [hclosed] at hopen
    cases hopen

/-- Witness for C4: with the Monday 09:00–10:30 rule and day 7 closed,
the 09:00 slot of day 0 is still offered and its date is not the closed
one. -/
theorem closed_exception_skips_date_witness :
    Slot.mk 540 540 ∈ list_available_slots envW [ruleW] [exClosedW] [] resW 14 ∧
    (Slot.mk 540 540).starts_local / 1440 ≠ 7 :=
  ⟨by decide,
    closed_exception_skips_date envW [ruleW] [exClosedW] [] resW 14 7 exClosedW
      (by decide) (by decide) (by decide) (by decide) (by decide) (by decide) (by decide)
      (Slot.mk 540 540) (by decide)⟩

/-- C6 as stated is false on the code: the filter in
`list_available_slots` discards only slots with `starts_local <` now, so
a slot starting exactly at `now` (09:00 here) is returned although it is
not strictly in the future. -/
theorem slot_at_now_counterexample :
    Slot.mk 540 540 ∈ list_available_slots envW [ruleW] [] [] resW 14 ∧
    ¬ envW.now_local < (Slot.mk 540 540).starts_local :=
  ⟨by decide, by decide⟩

/-- C6 amended: every returned slot starts at or after `now`; slots
strictly before `now` are discarded (the source guard is `<`, so a slot
starting exactly at `now` is kept). -/
theorem slots_not_before_now (env : Env) (rules : List AvailabilityRule)
    (exceptions : List AvailabilityException) (bookings : List Booking)
    (resource : Resource) (days_ahead : Nat) :
    ∀ s ∈ list_available_slots env rules exceptions bookings resource days_ahead,
      env.now_local ≤ s.starts_local := by
  intro s hs
  rw [list_available_slots] at hs
  have hs' := List.mem_of_mem_filter hs
  rw [List.mem_flatMap] at hs'
  obtain ⟨d, _, hsd⟩ := hs'
  rcases mem_dayContribution hsd with ⟨_, hmem⟩ | ⟨ex, _, _, hmem⟩ <;>
  · obtain ⟨rule, _, m, _, hle, hseq⟩ := mem_slotsForDay.mp hmem
    have hsl : s.starts_local = m := by rw [hseq]
    omega

/-- Witness for the amended C6 at the 09:45 slot of the fixture. -/
theorem slots_not_before_now_witness :
    Slot.mk 585 585 ∈ list_available_slots envW [ruleW] [] [] resW 14 ∧
    envW.now_local ≤ (Slot.mk 585 585).starts_local :=
  ⟨by decide, slots_not_before_now envW [ruleW] [] [] resW 14 (Slot.mk 585 585) (by decide)⟩

/-- C7: no returned slot's UTC instant equals the `starts_at_utc` of a
stored booking of the resource lying in `[now - 1 day, ∞)`. -/
theorem booked_slots_filtered (env : Env) (rules : List AvailabilityRule)
    (exceptions : List AvailabilityException) (bookings : List Booking)
    (resource : Resource) (days_ahead : Nat) :
    ∀ s ∈ list_available_slots env rules exceptions bookings resource days_ahead,
      ∀ b ∈ bookings, b.resource_id = resource.id →
        env.to_utc env.now_local - 1440 ≤ b.starts_at_utc →
        s.starts_utc ≠ b.starts_at_utc := by
  intro s hs b hb hrid hge heq
  rw [list_available_slots] at hs
  have hkeep := List.of_mem_filter hs
  have hmem : b.starts_at_utc ∈ bookedSet env bookings resource.id := by
    rw [bookedSet, List.mem_map]
    exact ⟨b, List.mem_filter.mpr ⟨hb, by simp [hrid, hge]⟩, rfl⟩
  rw [heq] at hkeep
  have hcont : (bookedSet env bookings resource.id).contains b.starts_at_utc = true :=
    List.elem_iff.mpr hmem
  rw [hcont] at hkeep
  cases hkeep

/-- Witness for C7: with the 09:45 slot booked, the offered 09:00 slot
differs from the booked instant. -/
theorem booked_slots_filtered_witness :
    Slot.mk 540 540 ∈ list_available_slots envW [ruleW] [] [bookW] resW 14 ∧
    (Slot.mk 540 540).starts_utc ≠ bookW.starts_at_utc :=
  ⟨by decide,
    booked_slots_filtered envW [ruleW] [] [bookW] resW 14 (Slot.mk 540 540) (by decide)
      bookW (by decide) (by decide) (by decide)⟩

/-! ### Exception override behaviour (C5) -/

theorem effectiveTimes_override {ex : AvailabilityException} {s e : Nat}
    (rule : AvailabilityRule) (hopen : ex.is_closed = false)
    (hs : ex.start_time_local = some s) (he : ex.end_time_local = some e) :
    effectiveTimes (some ex) rule = (s, e) := by
  simp only [effectiveTimes, hopen, hs, he]

theorem effectiveTimes_no_override {ex : AvailabilityException}
    (rule : AvailabilityRule)
    (hmiss : ex.start_time_local = none ∨ ex.end_time_local = none) :
    effectiveTimes (some ex) rule = (rule.start_time_local, rule.end_time_local) := by
  rcases hc : ex.is_closed with _ | _ <;>
    rcases hst : ex.start_time_local with _ | s <;>
    rcases hen : ex.end_time_local with _ | t <;>
    simp only [effectiveTimes, hc, hst, hen]
  exfalso
  rcases hmiss with h | h
  · cases h.symm.trans hst
  · cases h.symm.trans hen

theorem dayContribution_some_open {env : Env} {rules : List AvailabilityRule}
    {exceptions : List AvailabilityException} {rid d : Nat} {ex : AvailabilityException}
    (hfind : exceptionFor exceptions rid d = some ex) (hopen : ex.is_closed = false) :
    dayContribution env rules exceptions rid d =
      slotsForDay env ((activeRulesSorted rules rid).filter (fun r => r.weekday == d % 7))
        (some ex) d := by
  rw [dayContribution, hfind]
  split
  next ex' heq =>
    obtain rfl : ex = ex' := Option.some_inj.mp heq
    rw [hopen]
    simp
  next heq =>
    cases heq

theorem dayContribution_none {env : Env} {rules : List AvailabilityRule}
    {exceptions : List AvailabilityException} {rid d : Nat}
    (hfind : exceptionFor exceptions rid d = none) :
    dayContribution env rules exceptions rid d =
      slotsForDay env ((activeRulesSorted rules rid).filter (fun r => r.weekday == d % 7))
        none d := by
  rw [dayContribution, hfind]

theorem slotsForDay_override {env : Env} {day_rules : List AvailabilityRule}
    {d : Nat} {ex : AvailabilityException} {s e : Nat}
    (hopen : ex.is_closed = false) (hs : ex.start_time_local = some s)
    (he : ex.end_time_local = some e) :
    slotsForDay env day_rules (some ex) d =
      day_rules.flatMap (fun _rule => (slot_starts_local d s e).filterMap
        (fun m => if m < env.now_local then none else some ⟨m, env.to_utc m⟩)) := by
  rw [slotsForDay]
  congr 1
  funext rule
  rw [effectiveTimes_override rule hopen hs he]

theorem slotsForDay_no_override {env : Env} {day_rules : List AvailabilityRule}
    {d : Nat} {ex : AvailabilityException}
    (hmiss : ex.start_time_local = none ∨ ex.end_time_local = none) :
    slotsForDay env day_rules (some ex) d =
      day_rules.flatMap (fun rule =>
        (slot_starts_local d rule.start_time_local rule.end_time_local).filterMap
          (fun m => if m < env.now_local then none else some ⟨m, env.to_utc m⟩)) := by
  rw [slotsForDay]
  congr 1
  funext rule
  rw [effectiveTimes_no_override rule hmiss]

/-- C5: on a date of the window carrying a non-closed exception that
supplies both times, the date's slots in `list_available_slots` are
enumerated from the exception's interval in place of the rule's own
times for *every* active rule of the weekday; with no exception for the
date, or a non-closed exception missing one of the two times, each
rule's own times are used unchanged. -/
theorem exception_override_spec (env : Env) (rules : List AvailabilityRule)
    (exceptions : List AvailabilityException) (bookings : List Booking)
    (resource : Resource) (days_ahead d : Nat)
    (hwfr : ∀ r ∈ rules, r.end_time_local < 1440)
    (hwfe : ∀ e ∈ exceptions, ∀ t ∈ e.end_time_local, t < 1440)
    (huniq : ∀ a ∈ exceptions, ∀ b ∈ exceptions,
      a.resource_id = b.resource_id → a.date_local = b.date_local → a = b)
    (hwin : d ∈ daterange (env.now_local / 1440) days_ahead) :
    (∀ ex ∈ exceptions, ex.resource_id = resource.id → ex.date_local = d →
      ex.is_closed = false →
      ∀ s e, ex.start_time_local = some s → ex.end_time_local = some e →
        (list_available_slots env rules exceptions bookings resource days_ahead).filter
            (fun slot => slot.starts_local / 1440 == d) =
          (((activeRulesSorted rules resource.id).filter
              (fun r => r.weekday == d % 7)).flatMap
            (fun _rule => (slot_starts_local d s e).filterMap
              (fun m => if m < env.now_local then none else some ⟨m, env.to_utc m⟩))).filter
            (fun slot => !(bookedSet env bookings resource.id).contains slot.starts_utc)) ∧
    ((∀ e ∈ exceptions, ¬(e.resource_id = resource.id ∧ e.date_local = d)) →
      (list_available_slots env rules exceptions bookings resource days_ahead).filter
          (fun slot => slot.starts_local / 1440 == d) =
        (((activeRulesSorted rules resource.id).filter
            (fun r => r.weekday == d % 7)).flatMap
          (fun rule =>
            (slot_starts_local d rule.start_time_local rule.end_time_local).filterMap
              (fun m => if m < env.now_local then none else some ⟨m, env.to_utc m⟩))).filter
          (fun slot => !(bookedSet env bookings resource.id).contains slot.starts_utc)) ∧
    (∀ ex ∈ exceptions, ex.resource_id = resource.id → ex.date_local = d →
      ex.is_closed = false →
      (ex.start_time_local = none ∨ ex.end_time_local = none) →
        (list_available_slots env rules exceptions bookings resource days_ahead).filter
            (fun slot => slot.starts_local / 1440 == d) =
          (((activeRulesSorted rules resource.id).filter
              (fun r => r.weekday == d % 7)).flatMap
            (fun rule =>
              (slot_starts_local d rule.start_time_local rule.end_time_local).filterMap
                (fun m => if m < env.now_local then none else some ⟨m, env.to_utc m⟩))).filter
            (fun slot => !(bookedSet env bookings resource.id).contains slot.starts_utc)) := by
  refine ⟨?_, ?_, ?_⟩
  · intro ex hex hrid hd hopen s e hs he
    rw [list_available_slots_filter_date env rules exceptions bookings resource days_ahead d
        hwfr hwfe hwin,
      dayContribution_some_open (exceptionFor_eq_some huniq hex hrid hd) hopen,
      slotsForDay_override hopen hs he]
  · intro hnone
    rw [list_available_slots_filter_date env rules exceptions bookings resource days_ahead d
        hwfr hwfe hwin,
      dayContribution_none (exceptionFor_eq_none hnone)]
    rfl
  · intro ex hex hrid hd hopen hmiss
    rw [list_available_slots_filter_date env rules exceptions bookings resource days_ahead d
        hwfr hwfe hwin,
      dayContribution_some_open (exceptionFor_eq_some huniq hex hrid hd) hopen,
      slotsForDay_no_override hmiss]

/-- Witness for C5: two Monday rules, override 08:00–08:45 on day 0;
the day's slots come from the override interval for both rules. -/
theorem exception_override_spec_witness :
    (list_available_slots envW0 [ruleW, ruleW2] [exOverrideW] [] resW 14).filter
        (fun slot => slot.starts_local / 1440 == 0) =
      (((activeRulesSorted [ruleW, ruleW2] resW.id).filter
          (fun r => r.weekday == 0 % 7)).flatMap
        (fun _rule => (slot_starts_local 0 480 525).filterMap
          (fun m => if m < envW0.now_local then none
            else some ⟨m, envW0.to_utc m⟩))).filter
        (fun slot => !(bookedSet envW0 [] resW.id).contains slot.starts_utc) :=
  (exception_override_spec envW0 [ruleW, ruleW2] [exOverrideW] [] resW 14 0
      (by decide) (by decide) (by decide) (by decide)).1 exOverrideW (by decide)
    (by decide) (by decide) (by decide) 480 525 (by decide) (by decide)

/-! ### Booking creation (C1, C2) -/

/-- C2: `create_booking` fails with `quotaExceeded` exactly when the
user already has at least 5 bookings — over all resources — whose UTC
instant falls in `[to_utc(day 00:00), to_utc(day+1 00:00))` for the
local day derived from the requested instant; the check precedes the
insert, so nothing is stored on this failure. -/
theorem create_booking_quota_iff (env : Env) (bookings : List Booking)
    (new_id user_id : Nat) (resource : Resource) (starts_at_utc : Int) :
    create_booking env bookings new_id user_id resource starts_at_utc =
        Except.error BookingError.quotaExceeded ↔
      5 ≤ (bookings.filter (fun b =>
        b.user_id == user_id &&
        decide (env.to_utc (env.localtime starts_at_utc / 1440 * 1440) ≤ b.starts_at_utc) &&
        decide (b.starts_at_utc <
          env.to_utc (env.localtime starts_at_utc / 1440 * 1440 + 1440)))).length := by
  simp only [create_booking]
  split_ifs with h1 h2
  · exact iff_of_true rfl h1
  · refine iff_of_false (by simp) h1
  · refine iff_of_false (by simp) h1

/-- C1 as stated is false on the code: user 1 has exhausted the daily
quota and requests an instant already booked (by user 2) on the same
resource; `create_booking` raises the quota error, not
`slotAlreadyBooked`, because the quota check runs first. -/
theorem create_booking_dup_counterexample :
    (∃ b ∈ bookingsB, b.resource_id = resW.id ∧ b.starts_at_utc = (300 : Int)) ∧
    create_booking envW0 bookingsB 99 1 resW 300 =
      Except.error BookingError.quotaExceeded ∧
    create_booking envW0 bookingsB 99 1 resW 300 ≠
      Except.error BookingError.slotAlreadyBooked := by
  refine ⟨by decide, by decide, by decide⟩

/-- C1 amended: provided the requesting user's daily quota check passes
(fewer than 5 bookings on the local day of the instant), an existing
booking with the same `(resource, starts_at_utc)` makes `create_booking`
fail with `slotAlreadyBooked` (the store unchanged), and a successful
call happens only when no such pair existed, appending exactly the one
new row. -/
theorem create_booking_slot_conflict (env : Env) (bookings : List Booking)
    (new_id user_id : Nat) (resource : Resource) (starts_at_utc : Int)
    (hquota : user_daily_booking_count env bookings user_id
      (env.localtime starts_at_utc / 1440) < 5) :
    ((∃ b ∈ bookings, b.resource_id = resource.id ∧ b.starts_at_utc = starts_at_utc) →
      create_booking env bookings new_id user_id resource starts_at_utc =
        Except.error BookingError.slotAlreadyBooked) ∧
    (∀ bk new_bookings,
      create_booking env bookings new_id user_id resource starts_at_utc =
        Except.ok (bk, new_bookings) →
      (¬ ∃ b ∈ bookings, b.resource_id = resource.id ∧ b.starts_at_utc = starts_at_utc) ∧
      new_bookings = bookings ++ [bk] ∧ bk.resource_id = resource.id ∧
      bk.starts_at_utc = starts_at_utc ∧ bk.user_id = user_id) := by
  have hnq : ¬ (user_daily_booking_count env bookings user_id
      (env.localtime starts_at_utc / 1440) ≥ 5) := by omega
  simp only [create_booking]
  rw [if_neg hnq]
  by_cases hdup : bookings.any (fun b =>
      b.resource_id == resource.id && b.starts_at_utc == starts_at_utc)
  · rw [if_pos hdup]
    constructor
    · intro _
      rfl
    · intro bk nb h
      cases h
  · rw [if_neg hdup]
    have hnodup : ¬ ∃ b ∈ bookings, b.resource_id = resource.id ∧
        b.starts_at_utc = starts_at_utc := by
      intro hex
      apply hdup
      rw [List.any_eq_true]
      obtain ⟨b, hb, h1, h2⟩ := hex
      exact ⟨b, hb, by simp [h1, h2]⟩
    constructor
    · intro hex
      exact absurd hex hnodup
    · intro bk nb h
      injection h with hp
      rw [Prod.mk.injEq] at hp
      obtain ⟨hbk, hnb⟩ := hp
      subst hbk
      exact ⟨hnodup, hnb.symm, rfl, rfl, rfl⟩

/-- Witness for the amended C1: user 1, with no booking on the day,
requests the instant already booked by user 2. -/
theorem create_booking_slot_conflict_witness :
    (∃ b ∈ bookingsW1, b.resource_id = resW.id ∧ b.starts_at_utc = (300 : Int)) ∧
    create_booking envW0 bookingsW1 99 1 resW 300 =
      Except.error BookingError.slotAlreadyBooked :=
  ⟨by decide,
    (create_booking_slot_conflict envW0 bookingsW1 99 1 resW 300 (by decide)).1 (by decide)⟩

/-! ### Cancellation (C10) -/

/-- C10: `cancel_booking` succeeds — returning the store with the
booking's row deleted — iff the acting user is the booking's user or
the owner of the booking's resource; any other user gets
`notAuthorized` and nothing is deleted. -/
theorem cancel_booking_spec (bookings : List Booking) (booking : Booking)
    (resource : Resource) (acting_user_id : Nat) :
    (cancel_booking bookings booking resource acting_user_id =
        Except.error CancelError.notAuthorized ↔
      booking.user_id ≠ acting_user_id ∧ resource.owner_id ≠ acting_user_id) ∧
    ((booking.user_id = acting_user_id ∨ resource.owner_id = acting_user_id) →
      cancel_booking bookings booking resource acting_user_id =
        Except.ok (bookings.filter (fun b => !(b.id == booking.id))) ∧
      booking ∉ bookings.filter (fun b => !(b.id == booking.id))) := by
  rw [cancel_booking]
  split_ifs with h
  · constructor
    · exact iff_of_true rfl h
    · intro hor
      rcases hor with h1 | h1
      · exact absurd h1 h.1
      · exact absurd h1 h.2
  · constructor
    · exact iff_of_false (by simp) h
    · intro _
      refine ⟨rfl, ?_⟩
      intro hmem
      have hpred := List.of_mem_filter hmem
      simp at hpred

/-- Witness for C10: the booking's own user cancels it. -/
theorem cancel_booking_spec_witness :
    cancel_booking [bookW] bookW resW 2 =
      Except.ok (([bookW] : List Booking).filter (fun b => !(b.id == bookW.id))) ∧
    bookW ∉ ([bookW] : List Booking).filter (fun b => !(b.id == bookW.id)) :=
  (cancel_booking_spec [bookW] bookW resW 2).2 (Or.inl (by decide))

/-! ### Calendar export (C9): decimal value of `Nat.repr` -/

theorem digitChar_val (r : Nat) (h : r < 10) : (Nat.digitChar r).toNat - 48 = r := by
  interval_cases r <;> decide

theorem toDigitsCore_val (fuel : Nat) :
    ∀ n acc, n < fuel →
      digitsVal (Nat.toDigitsCore 10 fuel n acc) = n * 10 ^ acc.length + digitsVal acc := by
  induction fuel with
  | zero =>
    intro n acc h
    exact absurd h (Nat.not_lt_zero n)
  | succ fuel ih =>
    intro n acc h
    by_cases h0 : n / 10 = 0
    · have heq : Nat.toDigitsCore 10 (fuel + 1) n acc = Nat.digitChar (n % 10) :: acc := by
        rw [Nat.toDigitsCore]
        simp [h0]
      have hmod : n % 10 = n := Nat.mod_eq_of_lt (by omega)
      rw [heq]
      simp only [digitsVal, hmod, digitChar_val n (by omega)]
    · have heq : Nat.toDigitsCore 10 (fuel + 1) n acc
          = Nat.toDigitsCore 10 fuel (n / 10) (Nat.digitChar (n % 10) :: acc) := by
        rw [Nat.toDigitsCore]
        simp [h0]
      rw [heq, ih (n / 10) (Nat.digitChar (n % 10) :: acc) (by omega)]
      simp only [digitsVal, List.length_cons, digitChar_val (n % 10) (by omega)]
      have hdm : 10 * (n / 10) + n % 10 = n := Nat.div_add_mod n 10
      calc n / 10 * 10 ^ (acc.length + 1) + (n % 10 * 10 ^ acc.length + digitsVal acc)
          = (10 * (n / 10) + n % 10) * 10 ^ acc.length + digitsVal acc := by ring
        _ = n * 10 ^ acc.length + digitsVal acc := by rw [hdm]

theorem digitsVal_toDigits (n : Nat) : digitsVal (Nat.toDigits 10 n) = n := by
  rw [Nat.toDigits, toDigitsCore_val (n + 1) n [] (by omega)]
  simp [digitsVal]

theorem Nat_repr_injective {a b : Nat} (h : Nat.repr a = Nat.repr b) : a = b := by
  have hd : Nat.toDigits 10 a = Nat.toDigits 10 b := by
    have hdata := congrArg String.data h
    simpa [Nat.repr, List.asString] using hdata
  calc a = digitsVal (Nat.toDigits 10 a) := (digitsVal_toDigits a).symm
    _ = digitsVal (Nat.toDigits 10 b) := by rw [hd]
    _ = b := digitsVal_toDigits b

/-- C9: the calendar export of a booking declares start
`starts_at_utc`, end `starts_at_utc + 45` minutes (the booking's
derived `ends_at_utc`), and a uid built from the booking's id that is
unique — distinct booking ids give distinct uids. -/
theorem build_ics_bytes_spec (booking : Booking) (resource : Resource)
    (request_host : Option String) (now_utc : Int) :
    (build_ics_bytes booking resource request_host now_utc).begin_dt =
        booking.starts_at_utc ∧
    (build_ics_bytes booking resource request_host now_utc).end_dt =
        booking.starts_at_utc + 45 ∧
    (build_ics_bytes booking resource request_host now_utc).end_dt =
        ends_at_utc booking ∧
    ∀ (b' : Booking) (r' : Resource) (h' : Option String) (n' : Int),
      booking.id ≠ b'.id →
      (build_ics_bytes booking resource request_host now_utc).uid ≠
        (build_ics_bytes b' r' h' n').uid := by
  refine ⟨rfl, rfl, rfl, ?_⟩
  intro b' r' h' n' hne hEq
  have hEq' : Nat.repr booking.id ++ "@scheduler-platform" =
      Nat.repr b'.id ++ "@scheduler-platform" := hEq
  have hdata := congrArg String.data hEq'
  rw [String.data_append, String.data_append] at hdata
  have hrepr : (Nat.repr booking.id).data = (Nat.repr b'.id).data :=
    List.append_cancel_right hdata
  exact hne (Nat_repr_injective (String.ext hrepr))

/-- Witness for C9 on two concrete bookings with distinct ids. -/
theorem build_ics_bytes_spec_witness :
    (build_ics_bytes bookX resW none 0).begin_dt = bookX.starts_at_utc ∧
    (build_ics_bytes bookX resW none 0).end_dt = bookX.starts_at_utc + 45 ∧
    (build_ics_bytes bookX resW none 0).uid ≠ (build_ics_bytes bookY resW none 0).uid :=
  ⟨(build_ics_bytes_spec bookX resW none 0).1,
    (build_ics_bytes_spec bookX resW none 0).2.1,
    (build_ics_bytes_spec bookX resW none 0).2.2.2 bookY resW none 0 (by decide)⟩
